import Mathlib

/-!
# Verification of the unity_socket connection registry (src/main.go)

Shallow embedding of the Go program's data model and operations.

Modelling conventions:
* A `*websocket.Conn` handle is opaque and only used as a map key / write
  target; it is modelled as a `Nat`.
* Go maps are modelled as association lists with lookup / insert / erase
  operations (`lookupKV`, `insertKV`, `eraseKV`); Go map iteration order is
  unspecified, so list order carries no meaning and all iteration-dependent
  facts are proved order-independently.
* `float64` positions are only ever stored and copied, never computed with,
  so they are modelled as `Int`.
* `time.Time` / `time.Duration` values are modelled as `Int` seconds; the
  current time is passed explicitly to the operations that call `time.Now()`.
* Closing a connection (`ws.Close()`) is an external effect, modelled by
  returning the list of handles that were closed.
-/

set_option autoImplicit false

namespace UnitySocket

/-! ## Generic association-list map operations (Go map semantics) -/

/-- Lookup of a key in an association list (`m[k]` with `ok` flag). -/
def lookupKV {α β : Type} [DecidableEq α] : List (α × β) → α → Option β
  | [], _ => none
  | e :: t, k => if e.1 = k then some e.2 else lookupKV t k

/-- Removal of a key from an association list (`delete(m, k)`). -/
def eraseKV {α β : Type} [DecidableEq α] : List (α × β) → α → List (α × β)
  | [], _ => []
  | e :: t, k => if e.1 = k then eraseKV t k else e :: eraseKV t k

/-- Insertion / overwrite of a key (`m[k] = v`). -/
def insertKV {α β : Type} [DecidableEq α] (l : List (α × β)) (k : α) (v : β) :
    List (α × β) :=
  eraseKV l k ++ [(k, v)]

/-! ## Data model (src/main.go lines 21-45) -/

/-- `Player` (src/main.go lines 21-26): id, position, liveness marker. -/
structure Player where
  id : String
  x : Int
  y : Int
  lastSeen : Int
  deriving DecidableEq, Repr

/-- `MoveMessage` (src/main.go lines 28-33). -/
structure MoveMessage where
  type : String
  playerId : String
  x : Int
  y : Int
  deriving DecidableEq, Repr

/-- `PlayerStore` (src/main.go lines 35-39): conn→record map and
id→conn map (the mutex is implicit: each operation below is one atomic
critical section). -/
structure PlayerStore where
  players : List (Nat × Player)
  conns : List (String × Nat)
  deriving DecidableEq, Repr

/-- The initial store (src/main.go lines 41-44). -/
def emptyStore : PlayerStore := ⟨[], []⟩

/-! ## Registry operations (src/main.go lines 59-145) -/

/-- `PlayerStore.Add` (src/main.go lines 59-74).  If the player id already
has a connection, that connection's record entry is deleted and the
connection closed; then both maps get the new entry.  Returns the new store
and the list of connections that were closed. -/
def PlayerStore.Add (ps : PlayerStore) (ws : Nat) (player : Player) :
    PlayerStore × List Nat :=
  match lookupKV ps.conns player.id with
  | some existingConn =>
      (⟨insertKV (eraseKV ps.players existingConn) ws player,
        insertKV ps.conns player.id ws⟩, [existingConn])
  | none =>
      (⟨insertKV ps.players ws player, insertKV ps.conns player.id ws⟩, [])

/-- `PlayerStore.Update` (src/main.go lines 76-92).  `now` is the value of
`time.Now()` at the call. -/
def PlayerStore.Update (ps : PlayerStore) (ws : Nat) (x y now : Int) :
    PlayerStore :=
  match lookupKV ps.players ws with
  | some player =>
      { ps with
        players := insertKV ps.players ws
          { player with x := x, y := y, lastSeen := now } }
  | none => ps

/-- `PlayerStore.Delete` (src/main.go lines 94-106). -/
def PlayerStore.Delete (ps : PlayerStore) (ws : Nat) : PlayerStore :=
  match lookupKV ps.players ws with
  | some player =>
      ⟨eraseKV ps.players ws, eraseKV ps.conns player.id⟩
  | none => ps

/-- `PlayerStore.GetAllPlayers` (src/main.go lines 108-117): copy of all
records, taken under the lock. -/
def PlayerStore.GetAllPlayers (ps : PlayerStore) : List Player :=
  ps.players.map Prod.snd

/-- The inactivity timeout (src/main.go line 135): `30 * time.Second`,
in seconds. -/
def timeout : Int := 30

/-- The loop body of `CleanupInactivePlayers` (src/main.go lines 137-144).
Each stale entry removes itself from both maps and is closed; in Go,
deleting only the entry being visited during a map range is well defined
and every other entry is still visited, so iterating the snapshot of the
entries is faithful. -/
def cleanupLoop (now : Int) :
    List (Nat × Player) → PlayerStore → List Nat → PlayerStore × List Nat
  | [], st, closed => (st, closed)
  | (ws, player) :: rest, st, closed =>
      if timeout < now - player.lastSeen then
        cleanupLoop now rest
          ⟨eraseKV st.players ws, eraseKV st.conns player.id⟩
          (closed ++ [ws])
      else
        cleanupLoop now rest st closed

/-- `PlayerStore.CleanupInactivePlayers` (src/main.go lines 130-145).
Returns the new store and the list of closed connections. -/
def PlayerStore.CleanupInactivePlayers (ps : PlayerStore) (now : Int) :
    PlayerStore × List Nat :=
  cleanupLoop now ps.players ps []

/-! ## Operation sequences (for the registry consistency invariant) -/

/-- One registry-mutating operation. -/
inductive Op where
  | add (ws : Nat) (player : Player)
  | update (ws : Nat) (x y now : Int)
  | delete (ws : Nat)
  | sweep (now : Int)
  deriving DecidableEq, Repr

/-- Apply one operation to the store (discarding the closed-connection
effect lists). -/
def applyOp (ps : PlayerStore) : Op → PlayerStore
  | .add ws player => (ps.Add ws player).1
  | .update ws x y now => ps.Update ws x y now
  | .delete ws => ps.Delete ws
  | .sweep now => (ps.CleanupInactivePlayers now).1

/-- Apply a sequence of operations. -/
def runOps (ps : PlayerStore) (ops : List Op) : PlayerStore :=
  ops.foldl applyOp ps

/-- `freshOps ps ops` holds when every `add` in the sequence uses a
connection handle that is not registered at the moment it is applied —
exactly the call pattern of the program, where `Add` is invoked once per
freshly accepted connection (src/main.go line 166). -/
def freshOps : PlayerStore → List Op → Bool
  | _, [] => true
  | ps, op :: rest =>
      (match op with
       | Op.add ws _ => (lookupKV ps.players ws).isNone
       | _ => true) && freshOps (applyOp ps op) rest

/-- The two maps are mutually consistent: keys are unique in each map,
every record entry's id maps back to its connection, and every id entry
maps to a connection whose record carries that id (the bijection of the
spec). -/
def Consistent (ps : PlayerStore) : Prop :=
  (ps.players.map Prod.fst).Nodup ∧
  (ps.conns.map Prod.fst).Nodup ∧
  (∀ e ∈ ps.players, lookupKV ps.conns e.2.id = some e.1) ∧
  (∀ e ∈ ps.conns, (lookupKV ps.players e.2).map Player.id = some e.1)

instance (ps : PlayerStore) : Decidable (Consistent ps) := by
  unfold Consistent; infer_instance

/-! ## Basic lemmas about the association-list map operations -/

section MapLemmas

variable {α β : Type} [DecidableEq α]

theorem lookupKV_mem {l : List (α × β)} {k : α} {v : β}
    (h : lookupKV l k = some v) : (k, v) ∈ l := by
  induction l with
  | nil => simp [lookupKV] at h
  | cons e t ih =>
      rw [lookupKV] at h
      by_cases hk : e.1 = k
      · rw [if_pos hk] at h
        injection h with h2
        have he : (k, v) = e := by rw [← hk, ← h2]
        rw [he]
        exact List.mem_cons_self e t
      · rw [if_neg hk] at h
        exact List.mem_cons_of_mem e (ih h)

theorem mem_lookupKV {l : List (α × β)} {k : α} {v : β}
    (nd : (l.map Prod.fst).Nodup) (h : (k, v) ∈ l) : lookupKV l k = some v := by
  induction l with
  | nil => simp at h
  | cons e t ih =>
      rw [List.map_cons, List.nodup_cons] at nd
      rw [lookupKV]
      rcases List.mem_cons.1 h with h1 | h1
      · subst h1
        rw [if_pos rfl]
      · have hne : e.1 ≠ k := by
          intro hk
          apply nd.1
          rw [hk]
          exact List.mem_map.2 ⟨(k, v), h1, rfl⟩
        rw [if_neg hne]
        exact ih nd.2 h1

theorem lookupKV_eraseKV_self (l : List (α × β)) (k : α) :
    lookupKV (eraseKV l k) k = none := by
  induction l with
  | nil => rfl
  | cons e t ih =>
      rw [eraseKV]
      by_cases hk : e.1 = k
      · rw [if_pos hk]
        exact ih
      · rw [if_neg hk, lookupKV, if_neg hk]
        exact ih

theorem lookupKV_eraseKV_ne (l : List (α × β)) {k k' : α} (h : k' ≠ k) :
    lookupKV (eraseKV l k) k' = lookupKV l k' := by
  induction l with
  | nil => rfl
  | cons e t ih =>
      rw [eraseKV]
      by_cases hk : e.1 = k
      · rw [if_pos hk, ih, lookupKV]
        have h2 : ¬e.1 = k' := by
          rw [hk]
          exact fun he => h he.symm
        rw [if_neg h2]
      · rw [if_neg hk, lookupKV, lookupKV]
        by_cases hk' : e.1 = k'
        · rw [if_pos hk', if_pos hk']
        · rw [if_neg hk', if_neg hk', ih]

theorem lookupKV_append (l₁ l₂ : List (α × β)) (k : α) :
    lookupKV (l₁ ++ l₂) k =
      match lookupKV l₁ k with
      | some v => some v
      | none => lookupKV l₂ k := by
  induction l₁ with
  | nil => rfl
  | cons e t ih =>
      rw [List.cons_append, lookupKV, lookupKV]
      by_cases hk : e.1 = k
      · rw [if_pos hk, if_pos hk]
      · rw [if_neg hk, if_neg hk, ih]

theorem lookupKV_insertKV_self (l : List (α × β)) (k : α) (v : β) :
    lookupKV (insertKV l k v) k = some v := by
  rw [insertKV, lookupKV_append, lookupKV_eraseKV_self]
  simp [lookupKV]

theorem lookupKV_insertKV_ne (l : List (α × β)) {k k' : α} (v : β)
    (h : k' ≠ k) : lookupKV (insertKV l k v) k' = lookupKV l k' := by
  rw [insertKV, lookupKV_append, lookupKV_eraseKV_ne l h]
  cases hl : lookupKV l k' with
  | some w => rfl
  | none => simp [lookupKV, Ne.symm h]

theorem mem_eraseKV {l : List (α × β)} {k : α} {e : α × β} :
    e ∈ eraseKV l k ↔ e ∈ l ∧ e.1 ≠ k := by
  induction l with
  | nil => simp [eraseKV]
  | cons f t ih =>
      rw [eraseKV]
      by_cases hk : f.1 = k
      · rw [if_pos hk, ih]
        constructor
        · rintro ⟨h1, h2⟩
          exact ⟨List.mem_cons_of_mem f h1, h2⟩
        · rintro ⟨h1, h2⟩
          rcases List.mem_cons.1 h1 with h3 | h3
          · exact absurd (by rw [h3, hk]) h2
          · exact ⟨h3, h2⟩
      · rw [if_neg hk]
        constructor
        · intro h1
          rcases List.mem_cons.1 h1 with h3 | h3
          · refine ⟨List.mem_cons.2 (Or.inl h3), ?_⟩
            rw [h3]
            exact hk
          · rcases ih.1 h3 with ⟨h4, h5⟩
            exact ⟨List.mem_cons_of_mem f h4, h5⟩
        · rintro ⟨h1, h2⟩
          rcases List.mem_cons.1 h1 with h3 | h3
          · exact List.mem_cons.2 (Or.inl h3)
          · exact List.mem_cons_of_mem f (ih.2 ⟨h3, h2⟩)

theorem eraseKV_sublist (l : List (α × β)) (k : α) :
    (eraseKV l k).Sublist l := by
  induction l with
  | nil => exact List.Sublist.refl _
  | cons e t ih =>
      rw [eraseKV]
      by_cases hk : e.1 = k
      · rw [if_pos hk]
        exact ih.cons e
      · rw [if_neg hk]
        exact ih.cons₂ e

theorem nodupKeys_eraseKV {l : List (α × β)} (k : α)
    (nd : (l.map Prod.fst).Nodup) : ((eraseKV l k).map Prod.fst).Nodup :=
  nd.sublist ((eraseKV_sublist l k).map Prod.fst)

theorem not_mem_keys_eraseKV (l : List (α × β)) (k : α) :
    k ∉ (eraseKV l k).map Prod.fst := by
  intro h
  rcases List.mem_map.1 h with ⟨e, he, hk⟩
  exact (mem_eraseKV.1 he).2 hk

theorem nodupKeys_insertKV {l : List (α × β)} (k : α) (v : β)
    (nd : (l.map Prod.fst).Nodup) : ((insertKV l k v).map Prod.fst).Nodup := by
  rw [insertKV, List.map_append]
  apply List.Nodup.append (nodupKeys_eraseKV k nd) (by simp)
  intro a ha hb
  simp at hb
  exact not_mem_keys_eraseKV l k (hb ▸ ha)

end MapLemmas

/-! ## Connection session: inbound message handling (src/main.go lines 224-246) -/

/-- One successfully decoded inbound message processed by the session that
owns `playerID` (src/main.go lines 233-246): for a `"move"` message the
claimed player id is overwritten with the session's assigned id, the
registry is updated through the connection handle, and the rewritten
message is pushed onto the broadcast channel; any other type is ignored. -/
def sessionStep (st : PlayerStore) (ws : Nat) (playerID : String)
    (msg : MoveMessage) (now : Int) : PlayerStore × Option MoveMessage :=
  if msg.type = "move" then
    let m : MoveMessage := { msg with playerId := playerID }
    (st.Update ws m.x m.y now, some m)
  else
    (st, none)

/-! ## Broadcast dispatcher (src/main.go lines 250-282) -/

/-- Mutable state of one iteration of the dispatcher loop: the counters of
`handleBroadcast` plus the list of connections the event was written to
(write attempts, successful or not). -/
structure BCastState where
  playerCount : Nat
  sentCount : Nat
  writes : List Nat
  deriving DecidableEq, Repr

/-- `PlayerStore.Range` (src/main.go lines 119-128) specialised to a
state-threading visitor: the visitor returns the new state and whether to
continue.  The lock acquisition/release around the loop is modelled
separately by `broadcastTrace`. -/
def RangeVisit {σ : Type} : List (Nat × Player) → (σ → Nat → Player → σ × Bool) → σ → σ
  | [], _, s => s
  | e :: rest, f, s =>
      let r := f s e.1 e.2
      if r.2 then RangeVisit rest f r.1 else r.1

/-- The visitor passed to `store.Range` by `handleBroadcast`
(src/main.go lines 255-278).  `writeOk ws` tells whether `ws.WriteJSON`
succeeds; on failure the error is only logged and the visitor still
returns `true`, so iteration continues either way. -/
def broadcastVisitor (msg : MoveMessage) (writeOk : Nat → Bool)
    (s : BCastState) (ws : Nat) (player : Player) : BCastState × Bool :=
  let s1 : BCastState := { s with playerCount := s.playerCount + 1 }
  if player.id = msg.playerId then
    (s1, true)
  else
    let s2 : BCastState := { s1 with writes := s1.writes ++ [ws] }
    if writeOk ws then
      ({ s2 with sentCount := s2.sentCount + 1 }, true)
    else
      (s2, true)

/-- Processing of one dequeued event by `handleBroadcast`
(src/main.go lines 251-280). -/
def handleBroadcastOne (st : PlayerStore) (msg : MoveMessage)
    (writeOk : Nat → Bool) : BCastState :=
  RangeVisit st.players (broadcastVisitor msg writeOk) ⟨0, 0, []⟩

/-- One dispatcher iteration as a state transformer on the registry: the
visitor of src/main.go lines 255-278 performs no registry mutation, so the
store passes through unchanged. -/
def handleBroadcastStep (st : PlayerStore) (msg : MoveMessage)
    (writeOk : Nat → Bool) : PlayerStore × BCastState :=
  (st, handleBroadcastOne st msg writeOk)

/-! ## Lock/IO interleaving traces (src/main.go lines 119-128, 179-203, 250-282) -/

/-- An observable action relevant to the lock-vs-network-IO discipline:
acquiring / releasing the registry mutex, or a network write to a
connection. -/
inductive NetAction where
  | lockAcquire
  | lockRelease
  | write (ws : Nat)
  deriving DecidableEq, Repr

/-- The write actions performed by the `handleBroadcast` visitor during the
`Range` loop, in iteration order (src/main.go lines 255-278): one write per
registered entry whose record id differs from the event's player id. -/
def broadcastWrites (msg : MoveMessage) : List (Nat × Player) → List NetAction
  | [] => []
  | (ws, player) :: rest =>
      if player.id = msg.playerId then broadcastWrites msg rest
      else NetAction.write ws :: broadcastWrites msg rest

/-- The action trace of one broadcast fan-out (src/main.go lines 250-282):
`Range` acquires the lock (line 120), runs the visitor — which performs the
`WriteJSON` calls — for every entry, and releases the lock when the loop
ends (the deferred unlock of line 121). -/
def broadcastTrace (st : PlayerStore) (msg : MoveMessage) : List NetAction :=
  NetAction.lockAcquire :: (broadcastWrites msg st.players ++ [NetAction.lockRelease])

/-- The writes of the initial-sync loop (src/main.go lines 182-203): one
write to the new client `ws` per snapshot record, skipping the client's own
record. -/
def syncWrites (ws : Nat) (playerID : String) : List Player → List NetAction
  | [] => []
  | q :: rest =>
      if q.id = playerID then syncWrites ws playerID rest
      else NetAction.write ws :: syncWrites ws playerID rest

/-- The action trace of the initial-sync push (src/main.go lines 179-203):
`GetAllPlayers` takes the lock, copies the records and releases it
(lines 108-117); the writes to the new client happen afterwards, outside
the critical section. -/
def initialSyncTrace (st : PlayerStore) (ws : Nat) (playerID : String) :
    List NetAction :=
  NetAction.lockAcquire :: NetAction.lockRelease ::
    syncWrites ws playerID st.GetAllPlayers

/-- `true` iff every `write` in the trace happens while the lock is not
held (`d` counts currently-held acquisitions). -/
def writesOutsideLockFrom : Nat → List NetAction → Bool
  | _, [] => true
  | d, NetAction.lockAcquire :: r => writesOutsideLockFrom (d + 1) r
  | d, NetAction.lockRelease :: r => writesOutsideLockFrom (d - 1) r
  | d, NetAction.write _ :: r => decide (d = 0) && writesOutsideLockFrom d r

/-- `true` iff no `write` in the trace happens while the lock is held. -/
def writesOutsideLock (tr : List NetAction) : Bool :=
  writesOutsideLockFrom 0 tr

/-- `true` iff every `write` in the trace happens while the lock is held. -/
def writesUnderLockFrom : Nat → List NetAction → Bool
  | _, [] => true
  | d, NetAction.lockAcquire :: r => writesUnderLockFrom (d + 1) r
  | d, NetAction.lockRelease :: r => writesUnderLockFrom (d - 1) r
  | d, NetAction.write _ :: r => decide (0 < d) && writesUnderLockFrom d r

/-- `true` iff every `write` in the trace happens inside a critical
section. -/
def writesUnderLock (tr : List NetAction) : Bool :=
  writesUnderLockFrom 0 tr

/-! ## Initial sync of a new session (src/main.go lines 158-209) -/

/-- Outcome of the registration/sync phase of `handleConnections`: the
resulting registry, the peer-record messages whose send was attempted, and
whether the session went on into the receive loop. -/
structure SyncOutcome where
  store : PlayerStore
  attempted : List MoveMessage
  reachedActive : Bool
  deriving DecidableEq, Repr

/-- The messages sent by the loop of src/main.go lines 182-203: one
`"move"` message per snapshot record, skipping the new player's own id.  A
failed `WriteJSON` is only logged (lines 199-202), so every message is
attempted regardless of earlier failures. -/
def peerMsgs (playerID : String) : List Player → List MoveMessage
  | [] => []
  | q :: rest =>
      if q.id = playerID then peerMsgs playerID rest
      else ⟨"move", q.id, q.x, q.y⟩ :: peerMsgs playerID rest

/-- The registration and initial-sync phase of `handleConnections`
(src/main.go lines 158-209): `Add` the new record; send it to the client —
a failure there deletes the registry entry, closes the connection and ends
the session (lines 169-175); otherwise push one message per existing peer
from the `GetAllPlayers` snapshot, tolerating individual write failures,
and proceed into the receive loop.  `firstOk` is the success of the initial
`WriteJSON(player)`; `peerOk` gives the success of each peer-record write,
which the code ignores. -/
def initialSync (st0 : PlayerStore) (ws : Nat) (player : Player)
    (firstOk : Bool) (_peerOk : MoveMessage → Bool) : SyncOutcome :=
  let st1 := (st0.Add ws player).1
  if firstOk then
    { store := st1
      attempted := peerMsgs player.id st1.GetAllPlayers
      reachedActive := true }
  else
    { store := st1.Delete ws
      attempted := []
      reachedActive := false }

/-! ## Helper lemmas about the registry operations -/

theorem Delete_of_none {ps : PlayerStore} {ws : Nat}
    (h : lookupKV ps.players ws = none) : ps.Delete ws = ps := by
  rw [PlayerStore.Delete, h]

theorem filter_eraseKV_eq_nil {α β : Type} [DecidableEq α]
    (l : List (α × β)) (k : α) :
    (eraseKV l k).filter (fun e => decide (e.1 = k)) = [] := by
  rw [List.filter_eq_nil_iff]
  intro e he
  simp only [decide_eq_true_eq]
  exact (mem_eraseKV.1 he).2

theorem Add_lookup_self (ps : PlayerStore) (ws : Nat) (player : Player) :
    lookupKV (ps.Add ws player).1.players ws = some player := by
  rw [PlayerStore.Add]
  cases h : lookupKV ps.conns player.id with
  | some c => exact lookupKV_insertKV_self _ _ _
  | none => exact lookupKV_insertKV_self _ _ _

theorem lookupKV_eraseKV_none {α β : Type} [DecidableEq α]
    {l : List (α × β)} {k k' : α} (h : lookupKV l k' = none) :
    lookupKV (eraseKV l k) k' = none := by
  by_cases hk : k' = k
  · rw [hk]
    exact lookupKV_eraseKV_self l k
  · rw [lookupKV_eraseKV_ne l hk]
    exact h

theorem lookupKV_eraseKV_some {α β : Type} [DecidableEq α]
    {l : List (α × β)} {k k' : α} {v : β}
    (h : lookupKV (eraseKV l k) k' = some v) :
    lookupKV l k' = some v ∧ k' ≠ k := by
  by_cases hk : k' = k
  · rw [hk, lookupKV_eraseKV_self] at h
    exact Option.noConfusion h
  · rw [lookupKV_eraseKV_ne l hk] at h
    exact ⟨h, hk⟩

/-! ## Characterisation of the cleanup loop -/

theorem cleanupLoop_players_none (now : Int) :
    ∀ (entries : List (Nat × Player)) (st : PlayerStore) (closed : List Nat)
      (w : Nat), lookupKV st.players w = none →
      lookupKV (cleanupLoop now entries st closed).1.players w = none := by
  intro entries
  induction entries with
  | nil =>
      intro st closed w h
      exact h
  | cons e t ih =>
      intro st closed w h
      obtain ⟨ws, player⟩ := e
      rw [cleanupLoop]
      by_cases hs : timeout < now - player.lastSeen
      · rw [if_pos hs]
        exact ih _ _ w (lookupKV_eraseKV_none h)
      · rw [if_neg hs]
        exact ih _ _ w h

theorem cleanupLoop_conns_none (now : Int) :
    ∀ (entries : List (Nat × Player)) (st : PlayerStore) (closed : List Nat)
      (id : String), lookupKV st.conns id = none →
      lookupKV (cleanupLoop now entries st closed).1.conns id = none := by
  intro entries
  induction entries with
  | nil =>
      intro st closed id h
      exact h
  | cons e t ih =>
      intro st closed id h
      obtain ⟨ws, player⟩ := e
      rw [cleanupLoop]
      by_cases hs : timeout < now - player.lastSeen
      · rw [if_pos hs]
        exact ih _ _ id (lookupKV_eraseKV_none h)
      · rw [if_neg hs]
        exact ih _ _ id h

theorem cleanupLoop_players_some (now : Int) :
    ∀ (entries : List (Nat × Player)) (st : PlayerStore) (closed : List Nat)
      (w : Nat) (p : Player),
      lookupKV (cleanupLoop now entries st closed).1.players w = some p →
      lookupKV st.players w = some p := by
  intro entries
  induction entries with
  | nil =>
      intro st closed w p hp
      exact hp
  | cons e t ih =>
      intro st closed w p hp
      obtain ⟨ws, player⟩ := e
      rw [cleanupLoop] at hp
      by_cases hs : timeout < now - player.lastSeen
      · rw [if_pos hs] at hp
        exact (lookupKV_eraseKV_some (ih _ _ _ _ hp)).1
      · rw [if_neg hs] at hp
        exact ih _ _ _ _ hp

theorem cleanupLoop_conns_some (now : Int) :
    ∀ (entries : List (Nat × Player)) (st : PlayerStore) (closed : List Nat)
      (id : String) (w : Nat),
      lookupKV (cleanupLoop now entries st closed).1.conns id = some w →
      lookupKV st.conns id = some w := by
  intro entries
  induction entries with
  | nil =>
      intro st closed id w hw
      exact hw
  | cons e t ih =>
      intro st closed id w hw
      obtain ⟨ws, player⟩ := e
      rw [cleanupLoop] at hw
      by_cases hs : timeout < now - player.lastSeen
      · rw [if_pos hs] at hw
        exact (lookupKV_eraseKV_some (ih _ _ _ _ hw)).1
      · rw [if_neg hs] at hw
        exact ih _ _ _ _ hw

theorem cleanupLoop_players_keep (now : Int) :
    ∀ (entries : List (Nat × Player)) (st : PlayerStore) (closed : List Nat)
      (w : Nat),
      (∀ e ∈ entries, e.1 = w → ¬ timeout < now - e.2.lastSeen) →
      lookupKV (cleanupLoop now entries st closed).1.players w
        = lookupKV st.players w := by
  intro entries
  induction entries with
  | nil =>
      intro st closed w _
      rfl
  | cons e t ih =>
      intro st closed w hcond
      obtain ⟨ws, player⟩ := e
      rw [cleanupLoop]
      by_cases hs : timeout < now - player.lastSeen
      · rw [if_pos hs]
        have hne : w ≠ ws := by
          intro he
          exact hcond (ws, player) (List.mem_cons_self _ _) he.symm hs
        rw [ih _ _ _ (fun e he h1 => hcond e (List.mem_cons_of_mem _ he) h1)]
        show lookupKV (eraseKV st.players ws) w = lookupKV st.players w
        exact lookupKV_eraseKV_ne _ hne
      · rw [if_neg hs]
        exact ih _ _ _ (fun e he h1 => hcond e (List.mem_cons_of_mem _ he) h1)

theorem cleanupLoop_conns_keep (now : Int) :
    ∀ (entries : List (Nat × Player)) (st : PlayerStore) (closed : List Nat)
      (id : String),
      (∀ e ∈ entries, e.2.id = id → ¬ timeout < now - e.2.lastSeen) →
      lookupKV (cleanupLoop now entries st closed).1.conns id
        = lookupKV st.conns id := by
  intro entries
  induction entries with
  | nil =>
      intro st closed id _
      rfl
  | cons e t ih =>
      intro st closed id hcond
      obtain ⟨ws, player⟩ := e
      rw [cleanupLoop]
      by_cases hs : timeout < now - player.lastSeen
      · rw [if_pos hs]
        have hne : id ≠ player.id := by
          intro he
          exact hcond (ws, player) (List.mem_cons_self _ _) he.symm hs
        rw [ih _ _ _ (fun e he h1 => hcond e (List.mem_cons_of_mem _ he) h1)]
        show lookupKV (eraseKV st.conns player.id) id = lookupKV st.conns id
        exact lookupKV_eraseKV_ne _ hne
      · rw [if_neg hs]
        exact ih _ _ _ (fun e he h1 => hcond e (List.mem_cons_of_mem _ he) h1)

theorem cleanupLoop_players_remove (now : Int) :
    ∀ (entries : List (Nat × Player)) (st : PlayerStore) (closed : List Nat)
      (w : Nat) (p : Player),
      (w, p) ∈ entries → timeout < now - p.lastSeen →
      lookupKV (cleanupLoop now entries st closed).1.players w = none := by
  intro entries
  induction entries with
  | nil =>
      intro st closed w p h _
      simp at h
  | cons e t ih =>
      intro st closed w p hmem hs
      obtain ⟨ws, player⟩ := e
      rw [cleanupLoop]
      rcases List.mem_cons.1 hmem with h1 | h1
      · injection h1 with hw hp
        subst hw
        subst hp
        rw [if_pos hs]
        apply cleanupLoop_players_none
        show lookupKV (eraseKV st.players w) w = none
        exact lookupKV_eraseKV_self _ _
      · by_cases h2 : timeout < now - player.lastSeen
        · rw [if_pos h2]
          exact ih _ _ _ _ h1 hs
        · rw [if_neg h2]
          exact ih _ _ _ _ h1 hs

theorem cleanupLoop_conns_remove (now : Int) :
    ∀ (entries : List (Nat × Player)) (st : PlayerStore) (closed : List Nat)
      (w : Nat) (p : Player),
      (w, p) ∈ entries → timeout < now - p.lastSeen →
      lookupKV (cleanupLoop now entries st closed).1.conns p.id = none := by
  intro entries
  induction entries with
  | nil =>
      intro st closed w p h _
      simp at h
  | cons e t ih =>
      intro st closed w p hmem hs
      obtain ⟨ws, player⟩ := e
      rw [cleanupLoop]
      rcases List.mem_cons.1 hmem with h1 | h1
      · injection h1 with hw hp
        subst hw
        subst hp
        rw [if_pos hs]
        apply cleanupLoop_conns_none
        show lookupKV (eraseKV st.conns p.id) p.id = none
        exact lookupKV_eraseKV_self _ _
      · by_cases h2 : timeout < now - player.lastSeen
        · rw [if_pos h2]
          exact ih _ _ _ _ h1 hs
        · rw [if_neg h2]
          exact ih _ _ _ _ h1 hs

theorem cleanupLoop_closed (now : Int) :
    ∀ (entries : List (Nat × Player)) (st : PlayerStore) (closed : List Nat),
      (cleanupLoop now entries st closed).2 =
        closed ++ (entries.filter
          (fun e => decide (timeout < now - e.2.lastSeen))).map Prod.fst := by
  intro entries
  induction entries with
  | nil =>
      intro st closed
      simp [cleanupLoop]
  | cons e t ih =>
      intro st closed
      obtain ⟨ws, player⟩ := e
      rw [cleanupLoop]
      by_cases hs : timeout < now - player.lastSeen
      · rw [if_pos hs, ih]
        simp [hs]
      · rw [if_neg hs, ih]
        simp [hs]

theorem cleanupLoop_players_sublist (now : Int) :
    ∀ (entries : List (Nat × Player)) (st : PlayerStore) (closed : List Nat),
      (cleanupLoop now entries st closed).1.players.Sublist st.players := by
  intro entries
  induction entries with
  | nil =>
      intro st closed
      exact List.Sublist.refl _
  | cons e t ih =>
      intro st closed
      obtain ⟨ws, player⟩ := e
      rw [cleanupLoop]
      by_cases hs : timeout < now - player.lastSeen
      · rw [if_pos hs]
        exact (ih _ _).trans (eraseKV_sublist _ _)
      · rw [if_neg hs]
        exact ih _ _

theorem cleanupLoop_conns_sublist (now : Int) :
    ∀ (entries : List (Nat × Player)) (st : PlayerStore) (closed : List Nat),
      (cleanupLoop now entries st closed).1.conns.Sublist st.conns := by
  intro entries
  induction entries with
  | nil =>
      intro st closed
      exact List.Sublist.refl _
  | cons e t ih =>
      intro st closed
      obtain ⟨ws, player⟩ := e
      rw [cleanupLoop]
      by_cases hs : timeout < now - player.lastSeen
      · rw [if_pos hs]
        exact (ih _ _).trans (eraseKV_sublist _ _)
      · rw [if_neg hs]
        exact ih _ _

/-! ## The consistency invariant, lookup-level form -/

/-- Lookup-level restatement of `Consistent`, convenient for the
preservation proofs. -/
def ConsistentL (ps : PlayerStore) : Prop :=
  (ps.players.map Prod.fst).Nodup ∧
  (ps.conns.map Prod.fst).Nodup ∧
  (∀ w p, lookupKV ps.players w = some p → lookupKV ps.conns p.id = some w) ∧
  (∀ id w, lookupKV ps.conns id = some w →
    ∃ p, lookupKV ps.players w = some p ∧ p.id = id)

theorem consistent_iff (ps : PlayerStore) : Consistent ps ↔ ConsistentL ps := by
  constructor
  · rintro ⟨nd1, nd2, pc, cp⟩
    refine ⟨nd1, nd2, ?_, ?_⟩
    · intro w p hp
      exact pc (w, p) (lookupKV_mem hp)
    · intro id w hw
      have h1 := cp (id, w) (lookupKV_mem hw)
      cases hl : lookupKV ps.players w with
      | none =>
          rw [hl] at h1
          simp at h1
      | some p =>
          rw [hl] at h1
          simp only [Option.map_some'] at h1
          injection h1 with h1
          exact ⟨p, rfl, h1⟩
  · rintro ⟨nd1, nd2, pc, cp⟩
    refine ⟨nd1, nd2, ?_, ?_⟩
    · intro e he
      exact pc e.1 e.2 (mem_lookupKV nd1 he)
    · intro e he
      obtain ⟨p, hp, hid⟩ := cp e.1 e.2 (mem_lookupKV nd2 he)
      rw [hp]
      simp [hid]

theorem consistentL_empty : ConsistentL emptyStore := by
  refine ⟨List.nodup_nil, List.nodup_nil, ?_, ?_⟩
  · intro w p hp
    simp [lookupKV, emptyStore] at hp
  · intro id w hw
    simp [lookupKV, emptyStore] at hw

/-! ## Preservation of the invariant by each registry operation -/

theorem add_preserves (ps : PlayerStore) (ws : Nat) (player : Player)
    (h : ConsistentL ps) (hfresh : lookupKV ps.players ws = none) :
    ConsistentL (ps.Add ws player).1 := by
  obtain ⟨nd1, nd2, pc, cp⟩ := h
  rw [PlayerStore.Add]
  cases hold : lookupKV ps.conns player.id with
  | some old =>
      obtain ⟨q, hq, hqid⟩ := cp player.id old hold
      have hne : old ≠ ws := by
        intro he
        rw [he, hfresh] at hq
        exact Option.noConfusion hq
      show ConsistentL ⟨insertKV (eraseKV ps.players old) ws player,
        insertKV ps.conns player.id ws⟩
      refine ⟨?_, ?_, ?_, ?_⟩
      · exact nodupKeys_insertKV _ _ (nodupKeys_eraseKV _ nd1)
      · exact nodupKeys_insertKV _ _ nd2
      · show ∀ w p,
            lookupKV (insertKV (eraseKV ps.players old) ws player) w = some p →
            lookupKV (insertKV ps.conns player.id ws) p.id = some w
        intro w p hp
        by_cases hw : w = ws
        · subst hw
          rw [lookupKV_insertKV_self] at hp
          injection hp with hp
          subst hp
          exact lookupKV_insertKV_self _ _ _
        · rw [lookupKV_insertKV_ne _ _ hw] at hp
          obtain ⟨hp2, hwold⟩ := lookupKV_eraseKV_some hp
          have hpid : p.id ≠ player.id := by
            intro he
            have h1 := pc w p hp2
            rw [he, hold] at h1
            injection h1 with h1
            exact hwold h1.symm
          rw [lookupKV_insertKV_ne _ _ hpid]
          exact pc w p hp2
      · show ∀ id w, lookupKV (insertKV ps.conns player.id ws) id = some w →
            ∃ p, lookupKV (insertKV (eraseKV ps.players old) ws player) w
                = some p ∧ p.id = id
        intro id w hw2
        by_cases hid : id = player.id
        · subst hid
          rw [lookupKV_insertKV_self] at hw2
          injection hw2 with hw2
          subst hw2
          exact ⟨player, lookupKV_insertKV_self _ _ _, rfl⟩
        · rw [lookupKV_insertKV_ne _ _ hid] at hw2
          obtain ⟨p, hp, hpid⟩ := cp id w hw2
          have hwws : w ≠ ws := by
            intro he
            rw [he, hfresh] at hp
            exact Option.noConfusion hp
          have hwold : w ≠ old := by
            intro he
            rw [he, hq] at hp
            injection hp with hp
            apply hid
            rw [← hpid, ← hp]
            exact hqid
          refine ⟨p, ?_, hpid⟩
          rw [lookupKV_insertKV_ne _ _ hwws, lookupKV_eraseKV_ne _ hwold]
          exact hp
  | none =>
      show ConsistentL ⟨insertKV ps.players ws player,
        insertKV ps.conns player.id ws⟩
      refine ⟨?_, ?_, ?_, ?_⟩
      · exact nodupKeys_insertKV _ _ nd1
      · exact nodupKeys_insertKV _ _ nd2
      · show ∀ w p, lookupKV (insertKV ps.players ws player) w = some p →
            lookupKV (insertKV ps.conns player.id ws) p.id = some w
        intro w p hp
        by_cases hw : w = ws
        · subst hw
          rw [lookupKV_insertKV_self] at hp
          injection hp with hp
          subst hp
          exact lookupKV_insertKV_self _ _ _
        · rw [lookupKV_insertKV_ne _ _ hw] at hp
          have hpid : p.id ≠ player.id := by
            intro he
            have h1 := pc w p hp
            rw [he, hold] at h1
            exact Option.noConfusion h1
          rw [lookupKV_insertKV_ne _ _ hpid]
          exact pc w p hp
      · show ∀ id w, lookupKV (insertKV ps.conns player.id ws) id = some w →
            ∃ p, lookupKV (insertKV ps.players ws player) w = some p ∧ p.id = id
        intro id w hw2
        by_cases hid : id = player.id
        · subst hid
          rw [lookupKV_insertKV_self] at hw2
          injection hw2 with hw2
          subst hw2
          exact ⟨player, lookupKV_insertKV_self _ _ _, rfl⟩
        · rw [lookupKV_insertKV_ne _ _ hid] at hw2
          obtain ⟨p, hp, hpid⟩ := cp id w hw2
          have hwws : w ≠ ws := by
            intro he
            rw [he, hfresh] at hp
            exact Option.noConfusion hp
          refine ⟨p, ?_, hpid⟩
          rw [lookupKV_insertKV_ne _ _ hwws]
          exact hp

theorem update_preserves (ps : PlayerStore) (ws : Nat) (x y now : Int)
    (h : ConsistentL ps) : ConsistentL (ps.Update ws x y now) := by
  obtain ⟨nd1, nd2, pc, cp⟩ := h
  rw [PlayerStore.Update]
  cases hl : lookupKV ps.players ws with
  | none => exact ⟨nd1, nd2, pc, cp⟩
  | some player =>
      show ConsistentL ⟨insertKV ps.players ws ⟨player.id, x, y, now⟩, ps.conns⟩
      refine ⟨?_, nd2, ?_, ?_⟩
      · exact nodupKeys_insertKV _ _ nd1
      · show ∀ w p,
            lookupKV (insertKV ps.players ws ⟨player.id, x, y, now⟩) w = some p →
            lookupKV ps.conns p.id = some w
        intro w p hp
        by_cases hw : w = ws
        · subst hw
          rw [lookupKV_insertKV_self] at hp
          injection hp with hp
          rw [← hp]
          exact pc w player hl
        · rw [lookupKV_insertKV_ne _ _ hw] at hp
          exact pc w p hp
      · show ∀ id w, lookupKV ps.conns id = some w →
            ∃ p, lookupKV (insertKV ps.players ws ⟨player.id, x, y, now⟩) w
                = some p ∧ p.id = id
        intro id w hw2
        obtain ⟨p, hp, hpid⟩ := cp id w hw2
        by_cases hw : w = ws
        · subst hw
          rw [hl] at hp
          injection hp with hp
          refine ⟨⟨player.id, x, y, now⟩, lookupKV_insertKV_self _ _ _, ?_⟩
          show player.id = id
          rw [hp]
          exact hpid
        · refine ⟨p, ?_, hpid⟩
          rw [lookupKV_insertKV_ne _ _ hw]
          exact hp

theorem delete_preserves (ps : PlayerStore) (ws : Nat)
    (h : ConsistentL ps) : ConsistentL (ps.Delete ws) := by
  obtain ⟨nd1, nd2, pc, cp⟩ := h
  rw [PlayerStore.Delete]
  cases hl : lookupKV ps.players ws with
  | none => exact ⟨nd1, nd2, pc, cp⟩
  | some player =>
      show ConsistentL ⟨eraseKV ps.players ws, eraseKV ps.conns player.id⟩
      refine ⟨nodupKeys_eraseKV _ nd1, nodupKeys_eraseKV _ nd2, ?_, ?_⟩
      · show ∀ w p, lookupKV (eraseKV ps.players ws) w = some p →
            lookupKV (eraseKV ps.conns player.id) p.id = some w
        intro w p hp
        obtain ⟨hp2, hw⟩ := lookupKV_eraseKV_some hp
        have hpid : p.id ≠ player.id := by
          intro he
          have h1 := pc w p hp2
          have h2 := pc ws player hl
          rw [he, h2] at h1
          injection h1 with h1
          exact hw h1.symm
        rw [lookupKV_eraseKV_ne _ hpid]
        exact pc w p hp2
      · show ∀ id w, lookupKV (eraseKV ps.conns player.id) id = some w →
            ∃ p, lookupKV (eraseKV ps.players ws) w = some p ∧ p.id = id
        intro id w hw2
        obtain ⟨hw3, hid⟩ := lookupKV_eraseKV_some hw2
        obtain ⟨p, hp, hpid⟩ := cp id w hw3
        have hwws : w ≠ ws := by
          intro he
          rw [he, hl] at hp
          injection hp with hp
          apply hid
          rw [← hpid, ← hp]
        refine ⟨p, ?_, hpid⟩
        rw [lookupKV_eraseKV_ne _ hwws]
        exact hp

theorem sweep_preserves (ps : PlayerStore) (now : Int)
    (h : ConsistentL ps) : ConsistentL (ps.CleanupInactivePlayers now).1 := by
  obtain ⟨nd1, nd2, pc, cp⟩ := h
  rw [PlayerStore.CleanupInactivePlayers]
  refine ⟨?_, ?_, ?_, ?_⟩
  · exact nd1.sublist ((cleanupLoop_players_sublist now ps.players ps []).map
      Prod.fst)
  · exact nd2.sublist ((cleanupLoop_conns_sublist now ps.players ps []).map
      Prod.fst)
  · intro w p hp
    have hp0 : lookupKV ps.players w = some p :=
      cleanupLoop_players_some now ps.players ps [] w p hp
    have hstale : ¬ timeout < now - p.lastSeen := by
      intro hs
      have hnone := cleanupLoop_players_remove now ps.players ps [] w p
        (lookupKV_mem hp0) hs
      rw [hnone] at hp
      exact Option.noConfusion hp
    have hcond : ∀ e ∈ ps.players, e.2.id = p.id →
        ¬ timeout < now - e.2.lastSeen := by
      intro e he hid
      have hle : lookupKV ps.players e.1 = some e.2 := mem_lookupKV nd1 he
      have h1 := pc e.1 e.2 hle
      have h2 := pc w p hp0
      rw [hid, h2] at h1
      injection h1 with h1
      rw [← h1] at hle
      rw [hp0] at hle
      injection hle with hle
      rw [← hle]
      exact hstale
    rw [cleanupLoop_conns_keep now ps.players ps _ _ hcond]
    exact pc w p hp0
  · intro id w hw2
    have hw0 : lookupKV ps.conns id = some w :=
      cleanupLoop_conns_some now ps.players ps [] id w hw2
    obtain ⟨p, hp, hpid⟩ := cp id w hw0
    have hstale : ¬ timeout < now - p.lastSeen := by
      intro hs
      have hnone := cleanupLoop_conns_remove now ps.players ps [] w p
        (lookupKV_mem hp) hs
      rw [hpid] at hnone
      rw [hnone] at hw2
      exact Option.noConfusion hw2
    have hcond : ∀ e ∈ ps.players, e.1 = w →
        ¬ timeout < now - e.2.lastSeen := by
      intro e he hew
      have hle : lookupKV ps.players e.1 = some e.2 := mem_lookupKV nd1 he
      rw [hew, hp] at hle
      injection hle with hle
      rw [← hle]
      exact hstale
    refine ⟨p, ?_, hpid⟩
    rw [cleanupLoop_players_keep now ps.players ps _ _ hcond]
    exact hp

/-! ## Claim theorems -/

/-- C1: if `Add(ws, player)` runs while `player.id` is already mapped to a
(distinct) live connection `old`, then afterwards exactly one id→conn entry
exists for that id and it is the new handle, `old`'s conn→record entry is
gone, and `old` has been closed. -/
theorem add_takeover (ps : PlayerStore) (ws : Nat) (player : Player)
    (old : Nat) (hold : lookupKV ps.conns player.id = some old)
    (hne : old ≠ ws) :
    ((ps.Add ws player).1.conns.filter
        (fun e => decide (e.1 = player.id))).length = 1 ∧
    lookupKV (ps.Add ws player).1.conns player.id = some ws ∧
    lookupKV (ps.Add ws player).1.players old = none ∧
    old ∈ (ps.Add ws player).2 := by
  rw [PlayerStore.Add, hold]
  refine ⟨?_, ?_, ?_, ?_⟩
  · show ((insertKV ps.conns player.id ws).filter
        (fun e => decide (e.1 = player.id))).length = 1
    rw [insertKV, List.filter_append, filter_eraseKV_eq_nil]
    simp
  · exact lookupKV_insertKV_self _ _ _
  · show lookupKV (insertKV (eraseKV ps.players old) ws player) old = none
    rw [lookupKV_insertKV_ne _ _ hne, lookupKV_eraseKV_self]
  · show old ∈ [old]
    exact List.mem_singleton.2 rfl

/-- Witness for `add_takeover`: a store where id `"a"` is held by
connection 5, and connection 7 registers with the same id. -/
theorem add_takeover_witness :
    (((PlayerStore.mk [(5, ⟨"a", 1, 1, 1⟩)] [("a", 5)]).Add 7
        ⟨"a", 0, 0, 9⟩).1.conns.filter
        (fun e => decide (e.1 = "a"))).length = 1 ∧
    lookupKV ((PlayerStore.mk [(5, ⟨"a", 1, 1, 1⟩)] [("a", 5)]).Add 7
        ⟨"a", 0, 0, 9⟩).1.conns "a" = some 7 ∧
    lookupKV ((PlayerStore.mk [(5, ⟨"a", 1, 1, 1⟩)] [("a", 5)]).Add 7
        ⟨"a", 0, 0, 9⟩).1.players 5 = none ∧
    5 ∈ ((PlayerStore.mk [(5, ⟨"a", 1, 1, 1⟩)] [("a", 5)]).Add 7
        ⟨"a", 0, 0, 9⟩).2 :=
  add_takeover ⟨[(5, ⟨"a", 1, 1, 1⟩)], [("a", 5)]⟩ 7 ⟨"a", 0, 0, 9⟩ 5
    (by decide) (by decide)

/-- C3: a decoded `"move"` message processed by the session owning id `P`
is published with `playerId = P`: the claimed id is overwritten and can
never equal any `Q ≠ P`. -/
theorem anti_spoofing (st : PlayerStore) (ws : Nat) (P : String)
    (msg : MoveMessage) (now : Int) (h : msg.type = "move") :
    (sessionStep st ws P msg now).2 = some { msg with playerId := P } ∧
    (∀ ev Q, (sessionStep st ws P msg now).2 = some ev → Q ≠ P →
      ev.playerId ≠ Q) := by
  have h1 : (sessionStep st ws P msg now).2 = some { msg with playerId := P } := by
    rw [sessionStep, if_pos h]
  refine ⟨h1, ?_⟩
  intro ev Q hev hQ
  rw [h1] at hev
  injection hev with hev
  rw [← hev]
  exact fun hc => hQ hc.symm

/-- Witness for `anti_spoofing`: a message claiming id `"q"` processed by
the session owning `"p"`. -/
theorem anti_spoofing_witness :
    (sessionStep emptyStore 0 "p" ⟨"move", "q", 1, 2⟩ 0).2
        = some ⟨"move", "p", 1, 2⟩ ∧
    (∀ ev Q, (sessionStep emptyStore 0 "p" ⟨"move", "q", 1, 2⟩ 0).2 = some ev →
      Q ≠ "p" → ev.playerId ≠ Q) :=
  anti_spoofing emptyStore 0 "p" ⟨"move", "q", 1, 2⟩ 0 rfl

/-- C7: `Update` on a registered handle overwrites x/y, refreshes
`lastSeen`, keeps the id, leaves every other record and the id→conn map
unchanged; on an unknown handle it is a no-op. -/
theorem update_spec (ps : PlayerStore) (ws : Nat) (x y now : Int) :
    (∀ p, lookupKV ps.players ws = some p →
        (ps.Update ws x y now).players
            = insertKV ps.players ws ⟨p.id, x, y, now⟩ ∧
        lookupKV (ps.Update ws x y now).players ws = some ⟨p.id, x, y, now⟩ ∧
        (∀ w, w ≠ ws →
          lookupKV (ps.Update ws x y now).players w = lookupKV ps.players w) ∧
        (ps.Update ws x y now).conns = ps.conns) ∧
    (lookupKV ps.players ws = none → ps.Update ws x y now = ps) := by
  constructor
  · intro p hp
    rw [PlayerStore.Update, hp]
    refine ⟨rfl, ?_, ?_, rfl⟩
    · exact lookupKV_insertKV_self _ _ _
    · intro w hw
      exact lookupKV_insertKV_ne _ _ hw
  · intro hp
    rw [PlayerStore.Update, hp]

/-- Witness for `update_spec`: updating the registered handle 0 and the
unknown handle 3. -/
theorem update_spec_witness :
    lookupKV ((PlayerStore.mk [(0, ⟨"a", 0, 0, 0⟩)] [("a", 0)]).Update
        0 3 4 7).players 0 = some ⟨"a", 3, 4, 7⟩ ∧
    (PlayerStore.mk [(0, ⟨"a", 0, 0, 0⟩)] [("a", 0)]).Update 3 5 5 5
        = PlayerStore.mk [(0, ⟨"a", 0, 0, 0⟩)] [("a", 0)] :=
  ⟨((update_spec ⟨[(0, ⟨"a", 0, 0, 0⟩)], [("a", 0)]⟩ 0 3 4 7).1
      ⟨"a", 0, 0, 0⟩ (by decide)).2.1,
   (update_spec ⟨[(0, ⟨"a", 0, 0, 0⟩)], [("a", 0)]⟩ 3 5 5 5).2 (by decide)⟩

/-- C8: `Delete` on a registered handle removes both map entries, is a
no-op on an unknown handle, and is idempotent: a second `Delete` of the
same handle leaves the store exactly as after the first. -/
theorem delete_spec (ps : PlayerStore) (ws : Nat) :
    (∀ p, lookupKV ps.players ws = some p →
        (ps.Delete ws).players = eraseKV ps.players ws ∧
        (ps.Delete ws).conns = eraseKV ps.conns p.id ∧
        lookupKV (ps.Delete ws).players ws = none ∧
        lookupKV (ps.Delete ws).conns p.id = none) ∧
    (lookupKV ps.players ws = none → ps.Delete ws = ps) ∧
    (ps.Delete ws).Delete ws = ps.Delete ws := by
  refine ⟨?_, fun hp => Delete_of_none hp, ?_⟩
  · intro p hp
    rw [PlayerStore.Delete, hp]
    exact ⟨rfl, rfl, lookupKV_eraseKV_self _ _, lookupKV_eraseKV_self _ _⟩
  · cases hp : lookupKV ps.players ws with
    | some p =>
        apply Delete_of_none
        rw [PlayerStore.Delete, hp]
        exact lookupKV_eraseKV_self _ _
    | none =>
        rw [Delete_of_none hp]
        exact Delete_of_none hp

/-- The write attempts accumulated by the `handleBroadcast` visitor over a
`Range` iteration: one per entry whose record id differs from the event's
player id, independent of write successes. -/
theorem rangeVisit_broadcast_writes (msg : MoveMessage) (writeOk : Nat → Bool) :
    ∀ (entries : List (Nat × Player)) (s : BCastState),
      (RangeVisit entries (broadcastVisitor msg writeOk) s).writes =
        s.writes ++
          (entries.filter (fun e => decide (e.2.id ≠ msg.playerId))).map
            Prod.fst := by
  intro entries
  induction entries with
  | nil =>
      intro s
      simp [RangeVisit]
  | cons e rest ih =>
      intro s
      rw [RangeVisit]
      by_cases hid : e.2.id = msg.playerId
      · have hv : broadcastVisitor msg writeOk s e.1 e.2 =
            ({ s with playerCount := s.playerCount + 1 }, true) := by
          rw [broadcastVisitor]
          simp [hid]
        rw [hv]
        simp only [if_pos]
        rw [ih]
        simp [hid]
      · by_cases hw : writeOk e.1
        · have hv : broadcastVisitor msg writeOk s e.1 e.2 =
              (⟨s.playerCount + 1, s.sentCount + 1, s.writes ++ [e.1]⟩, true) := by
            rw [broadcastVisitor]
            simp [hid, hw]
          rw [hv]
          simp only [if_pos]
          rw [ih]
          simp [hid]
        · have hv : broadcastVisitor msg writeOk s e.1 e.2 =
              (⟨s.playerCount + 1, s.sentCount, s.writes ++ [e.1]⟩, true) := by
            rw [broadcastVisitor]
            simp [hid, hw]
          rw [hv]
          simp only [if_pos]
          rw [ih]
          simp [hid]

/-- C9: processing one dequeued event leaves the registry maps unchanged,
and the set of peers written to is every non-originator entry, independent
of which writes fail: a failed write never aborts the iteration and never
triggers a registry mutation. -/
theorem broadcast_no_mutation (st : PlayerStore) (msg : MoveMessage)
    (writeOk : Nat → Bool) :
    (handleBroadcastStep st msg writeOk).1 = st ∧
    (handleBroadcastStep st msg writeOk).2.writes =
      (st.players.filter (fun e => decide (e.2.id ≠ msg.playerId))).map
        Prod.fst := by
  refine ⟨rfl, ?_⟩
  show (handleBroadcastOne st msg writeOk).writes = _
  rw [handleBroadcastOne, rangeVisit_broadcast_writes]
  rfl

/-- C4: the dispatcher's fan-out of an event with player id `P` never
writes to the connection whose registered record carries `P`, and writes to
every other registered connection. -/
theorem no_self_echo (st : PlayerStore) (msg : MoveMessage)
    (writeOk : Nat → Bool) (nd : (st.players.map Prod.fst).Nodup)
    (ws : Nat) (p : Player) (hp : lookupKV st.players ws = some p) :
    (p.id = msg.playerId → ws ∉ (handleBroadcastOne st msg writeOk).writes) ∧
    (p.id ≠ msg.playerId → ws ∈ (handleBroadcastOne st msg writeOk).writes) := by
  have hchar : (handleBroadcastOne st msg writeOk).writes =
      (st.players.filter (fun e => decide (e.2.id ≠ msg.playerId))).map
        Prod.fst := by
    rw [handleBroadcastOne, rangeVisit_broadcast_writes]
    rfl
  constructor
  · intro hid hmem
    rw [hchar] at hmem
    rcases List.mem_map.1 hmem with ⟨e, he, hke⟩
    rcases List.mem_filter.1 he with ⟨he1, he2⟩
    have hne : e.2.id ≠ msg.playerId := of_decide_eq_true he2
    have hmem2 : (ws, e.2) ∈ st.players := by
      have he3 : (ws, e.2) = e := by rw [← hke]
      rw [he3]
      exact he1
    have hl : lookupKV st.players ws = some e.2 := mem_lookupKV nd hmem2
    rw [hp] at hl
    injection hl with hl
    rw [← hl] at hne
    exact hne hid
  · intro hid
    rw [hchar]
    refine List.mem_map.2 ⟨(ws, p), ?_, rfl⟩
    exact List.mem_filter.2 ⟨lookupKV_mem hp, decide_eq_true hid⟩

/-- Witness for `no_self_echo`: two registered players `"a"` (conn 0) and
`"b"` (conn 1); an event from `"a"` is written to conn 1 but not conn 0. -/
theorem no_self_echo_witness :
    (0 ∉ (handleBroadcastOne
        ⟨[(0, ⟨"a", 0, 0, 0⟩), (1, ⟨"b", 0, 0, 0⟩)], [("a", 0), ("b", 1)]⟩
        ⟨"move", "a", 5, 6⟩ (fun _ => true)).writes) ∧
    (1 ∈ (handleBroadcastOne
        ⟨[(0, ⟨"a", 0, 0, 0⟩), (1, ⟨"b", 0, 0, 0⟩)], [("a", 0), ("b", 1)]⟩
        ⟨"move", "a", 5, 6⟩ (fun _ => true)).writes) :=
  ⟨(no_self_echo
      ⟨[(0, ⟨"a", 0, 0, 0⟩), (1, ⟨"b", 0, 0, 0⟩)], [("a", 0), ("b", 1)]⟩
      ⟨"move", "a", 5, 6⟩ (fun _ => true) (by decide) 0 ⟨"a", 0, 0, 0⟩
      (by decide)).1 rfl,
   (no_self_echo
      ⟨[(0, ⟨"a", 0, 0, 0⟩), (1, ⟨"b", 0, 0, 0⟩)], [("a", 0), ("b", 1)]⟩
      ⟨"move", "a", 5, 6⟩ (fun _ => true) (by decide) 1 ⟨"b", 0, 0, 0⟩
      (by decide)).2 (by decide)⟩

/-- C10: during the initial-sync push, peer-record write failures are not
fatal: for any pattern of peer write outcomes the session still attempts
every peer record, proceeds into the receive loop with its registry entry
intact, and only failure of the very first message (the client's own
record) terminates the session, removing the entry. -/
theorem initial_sync_tolerant (st0 : PlayerStore) (ws : Nat)
    (player : Player) (peerOk : MoveMessage → Bool) :
    (initialSync st0 ws player true peerOk).reachedActive = true ∧
    (initialSync st0 ws player true peerOk).store = (st0.Add ws player).1 ∧
    lookupKV (initialSync st0 ws player true peerOk).store.players ws
        = some player ∧
    (initialSync st0 ws player true peerOk).attempted =
      peerMsgs player.id (st0.Add ws player).1.GetAllPlayers ∧
    (initialSync st0 ws player false peerOk).reachedActive = false ∧
    lookupKV (initialSync st0 ws player false peerOk).store.players ws
        = none := by
  refine ⟨rfl, rfl, Add_lookup_self st0 ws player, rfl, rfl, ?_⟩
  show lookupKV (((st0.Add ws player).1).Delete ws).players ws = none
  rw [PlayerStore.Delete, Add_lookup_self st0 ws player]
  exact lookupKV_eraseKV_self _ _

theorem writesUnderLockFrom_broadcastWrites (msg : MoveMessage) :
    ∀ (l : List (Nat × Player)) (d : Nat) (rest : List NetAction), 0 < d →
      writesUnderLockFrom d (broadcastWrites msg l ++ rest)
        = writesUnderLockFrom d rest := by
  intro l
  induction l with
  | nil =>
      intro d rest _
      rfl
  | cons e t ih =>
      intro d rest hd
      obtain ⟨ws, player⟩ := e
      rw [broadcastWrites]
      by_cases hid : player.id = msg.playerId
      · rw [if_pos hid]
        exact ih d rest hd
      · rw [if_neg hid, List.cons_append, writesUnderLockFrom, ih d rest hd]
        simp [hd]

theorem writesOutsideLockFrom_syncWrites (ws : Nat) (playerID : String) :
    ∀ (l : List Player),
      writesOutsideLockFrom 0 (syncWrites ws playerID l) = true := by
  intro l
  induction l with
  | nil => rfl
  | cons q t ih =>
      rw [syncWrites]
      by_cases hid : q.id = playerID
      · rw [if_pos hid]
        exact ih
      · rw [if_neg hid, writesOutsideLockFrom]
        simp [ih]

/-- C5 counterexample: with players `"a"` (conn 0) and `"b"` (conn 1)
registered, the broadcast fan-out of an event from `"a"` performs its
network write to conn 1 inside `Range`'s critical section: the claim that
all writes to connections happen outside the lock is false for the
dispatcher. -/
theorem lock_io_counterexample :
    writesOutsideLock (broadcastTrace
      ⟨[(0, ⟨"a", 0, 0, 0⟩), (1, ⟨"b", 0, 0, 0⟩)], [("a", 0), ("b", 1)]⟩
      ⟨"move", "a", 5, 6⟩) = false := by decide

/-- C5 amended: the initial-sync push does write outside the critical
section, on the snapshot copied by `GetAllPlayers` under the lock; but the
broadcast fan-out's per-peer writes all occur while the registry lock is
held, inside `Range`. -/
theorem lock_io_discipline (st : PlayerStore) (msg : MoveMessage)
    (ws : Nat) (playerID : String) :
    writesUnderLock (broadcastTrace st msg) = true ∧
    writesOutsideLock (initialSyncTrace st ws playerID) = true := by
  constructor
  · rw [writesUnderLock, broadcastTrace, writesUnderLockFrom,
      writesUnderLockFrom_broadcastWrites msg st.players 1 _ (by decide)]
    rfl
  · rw [writesOutsideLock, initialSyncTrace, writesOutsideLockFrom,
      writesOutsideLockFrom]
    exact writesOutsideLockFrom_syncWrites ws playerID _

/-- C2 counterexample: the bijection does NOT survive every operation
sequence from the empty registry.  `Add` with a handle that is already
registered under a different id (here conn 0 registers as `"a"`, then
re-registers as `"b"`) leaves a dangling id→conn entry for `"a"`. -/
theorem registry_consistency_counterexample :
    ¬ Consistent (runOps emptyStore
      [Op.add 0 ⟨"a", 0, 0, 0⟩, Op.add 0 ⟨"b", 0, 0, 0⟩]) := by decide

/-- C2 amended: after any sequence of Add/Update/Delete/Sweep operations
from the empty registry in which every `Add` uses a handle that is not
currently registered — the only call pattern the program produces, since
`Add` is invoked exactly once per freshly accepted connection — the
conn→record and id→conn maps form a bijection. -/
theorem registry_consistency (ops : List Op)
    (h : freshOps emptyStore ops = true) :
    Consistent (runOps emptyStore ops) := by
  rw [consistent_iff]
  have hgen : ∀ (l : List Op) (ps : PlayerStore), ConsistentL ps →
      freshOps ps l = true → ConsistentL (runOps ps l) := by
    intro l
    induction l with
    | nil =>
        intro ps hc _
        exact hc
    | cons op rest ih =>
        intro ps hc hf
        have hstep : ConsistentL (applyOp ps op) ∧
            freshOps (applyOp ps op) rest = true := by
          cases op with
          | add ws player =>
              rw [freshOps, Bool.and_eq_true] at hf
              exact ⟨add_preserves ps ws player hc
                (Option.isNone_iff_eq_none.1 hf.1), hf.2⟩
          | update ws x y now =>
              rw [freshOps, Bool.and_eq_true] at hf
              · exact ⟨update_preserves ps ws x y now hc, hf.2⟩
              · exact fun a b hx => Op.noConfusion hx
          | delete ws =>
              rw [freshOps, Bool.and_eq_true] at hf
              · exact ⟨delete_preserves ps ws hc, hf.2⟩
              · exact fun a b hx => Op.noConfusion hx
          | sweep now =>
              rw [freshOps, Bool.and_eq_true] at hf
              · exact ⟨sweep_preserves ps now hc, hf.2⟩
              · exact fun a b hx => Op.noConfusion hx
        exact ih (applyOp ps op) hstep.1 hstep.2
  exact hgen ops emptyStore consistentL_empty h

/-- A concrete operation sequence exercising all four operations,
including a duplicate-identity takeover (`Op.add 2` re-registers `"a"`). -/
def opsDemo : List Op :=
  [Op.add 0 ⟨"a", 0, 0, 0⟩, Op.add 1 ⟨"b", 0, 0, 0⟩,
   Op.update 0 3 4 5, Op.add 2 ⟨"a", 0, 0, 50⟩,
   Op.delete 1, Op.sweep 60]

/-- Witness for `registry_consistency` at the sequence `opsDemo`. -/
theorem registry_consistency_witness :
    freshOps emptyStore opsDemo = true ∧
    Consistent (runOps emptyStore opsDemo) :=
  ⟨by decide, registry_consistency opsDemo (by decide)⟩

/-- C6: on a consistent registry, the sweep removes from both maps and
closes exactly the connections whose `lastSeen` is more than `timeout`
(30 s) old relative to `now`; every other connection keeps its record and
its id→conn entry unchanged. -/
theorem sweep_stale (ps : PlayerStore) (now : Int) (hc : Consistent ps) :
    (∀ ws p, lookupKV ps.players ws = some p →
        (timeout < now - p.lastSeen →
            lookupKV (ps.CleanupInactivePlayers now).1.players ws = none ∧
            lookupKV (ps.CleanupInactivePlayers now).1.conns p.id = none ∧
            ws ∈ (ps.CleanupInactivePlayers now).2) ∧
        (¬ timeout < now - p.lastSeen →
            lookupKV (ps.CleanupInactivePlayers now).1.players ws = some p ∧
            lookupKV (ps.CleanupInactivePlayers now).1.conns p.id = some ws)) ∧
    (∀ ws, ws ∈ (ps.CleanupInactivePlayers now).2 →
        ∃ p, lookupKV ps.players ws = some p ∧ timeout < now - p.lastSeen) := by
  obtain ⟨nd1, nd2, pc, cp⟩ := (consistent_iff ps).1 hc
  rw [PlayerStore.CleanupInactivePlayers]
  constructor
  · intro ws p hp
    constructor
    · intro hs
      refine ⟨?_, ?_, ?_⟩
      · exact cleanupLoop_players_remove now ps.players ps [] ws p
          (lookupKV_mem hp) hs
      · exact cleanupLoop_conns_remove now ps.players ps [] ws p
          (lookupKV_mem hp) hs
      · rw [cleanupLoop_closed]
        simp only [List.nil_append]
        exact List.mem_map.2 ⟨(ws, p),
          List.mem_filter.2 ⟨lookupKV_mem hp, decide_eq_true hs⟩, rfl⟩
    · intro hs
      have hcondp : ∀ e ∈ ps.players, e.1 = ws →
          ¬ timeout < now - e.2.lastSeen := by
        intro e he hew
        have hle : lookupKV ps.players e.1 = some e.2 := mem_lookupKV nd1 he
        rw [hew, hp] at hle
        injection hle with hle
        rw [← hle]
        exact hs
      have hcondc : ∀ e ∈ ps.players, e.2.id = p.id →
          ¬ timeout < now - e.2.lastSeen := by
        intro e he hid
        have hle : lookupKV ps.players e.1 = some e.2 := mem_lookupKV nd1 he
        have h1 := pc e.1 e.2 hle
        have h2 := pc ws p hp
        rw [hid, h2] at h1
        injection h1 with h1
        rw [← h1] at hle
        rw [hp] at hle
        injection hle with hle
        rw [← hle]
        exact hs
      constructor
      · rw [cleanupLoop_players_keep now ps.players ps [] ws hcondp]
        exact hp
      · rw [cleanupLoop_conns_keep now ps.players ps [] p.id hcondc]
        exact pc ws p hp
  · intro ws hws
    rw [cleanupLoop_closed] at hws
    simp only [List.nil_append] at hws
    rcases List.mem_map.1 hws with ⟨e, he, hew⟩
    rcases List.mem_filter.1 he with ⟨he1, he2⟩
    have hs : timeout < now - e.2.lastSeen := of_decide_eq_true he2
    have hle : lookupKV ps.players e.1 = some e.2 := mem_lookupKV nd1 he1
    rw [hew] at hle
    exact ⟨e.2, hle, hs⟩

/-- Witness for `sweep_stale`: `"a"` (conn 0, idle 60 s) is swept, `"b"`
(conn 1, idle 10 s) stays, at `now = 60` with the 30 s timeout. -/
theorem sweep_stale_witness :
    (lookupKV ((PlayerStore.mk [(0, ⟨"a", 1, 2, 0⟩), (1, ⟨"b", 3, 4, 50⟩)]
        [("a", 0), ("b", 1)]).CleanupInactivePlayers 60).1.players 0
        = none ∧
      lookupKV ((PlayerStore.mk [(0, ⟨"a", 1, 2, 0⟩), (1, ⟨"b", 3, 4, 50⟩)]
        [("a", 0), ("b", 1)]).CleanupInactivePlayers 60).1.conns "a"
        = none ∧
      0 ∈ ((PlayerStore.mk [(0, ⟨"a", 1, 2, 0⟩), (1, ⟨"b", 3, 4, 50⟩)]
        [("a", 0), ("b", 1)]).CleanupInactivePlayers 60).2) ∧
    (lookupKV ((PlayerStore.mk [(0, ⟨"a", 1, 2, 0⟩), (1, ⟨"b", 3, 4, 50⟩)]
        [("a", 0), ("b", 1)]).CleanupInactivePlayers 60).1.players 1
        = some ⟨"b", 3, 4, 50⟩ ∧
      lookupKV ((PlayerStore.mk [(0, ⟨"a", 1, 2, 0⟩), (1, ⟨"b", 3, 4, 50⟩)]
        [("a", 0), ("b", 1)]).CleanupInactivePlayers 60).1.conns "b"
        = some 1) :=
  ⟨((sweep_stale ⟨[(0, ⟨"a", 1, 2, 0⟩), (1, ⟨"b", 3, 4, 50⟩)],
      [("a", 0), ("b", 1)]⟩ 60 (by decide)).1 0 ⟨"a", 1, 2, 0⟩
      (by decide)).1 (by decide),
   ((sweep_stale ⟨[(0, ⟨"a", 1, 2, 0⟩), (1, ⟨"b", 3, 4, 50⟩)],
      [("a", 0), ("b", 1)]⟩ 60 (by decide)).1 1 ⟨"b", 3, 4, 50⟩
      (by decide)).2 (by decide)⟩

/-- Witness for `delete_spec`: deleting the registered handle 0. -/
theorem delete_spec_witness :
    lookupKV ((PlayerStore.mk [(0, ⟨"a", 1, 2, 3⟩)] [("a", 0)]).Delete
        0).players 0 = none ∧
    lookupKV ((PlayerStore.mk [(0, ⟨"a", 1, 2, 3⟩)] [("a", 0)]).Delete
        0).conns "a" = none :=
  ⟨((delete_spec ⟨[(0, ⟨"a", 1, 2, 3⟩)], [("a", 0)]⟩ 0).1 ⟨"a", 1, 2, 3⟩
      (by decide)).2.2.1,
   ((delete_spec ⟨[(0, ⟨"a", 1, 2, 3⟩)], [("a", 0)]⟩ 0).1 ⟨"a", 1, 2, 3⟩
      (by decide)).2.2.2⟩

end UnitySocket
